import Mathlib

set_option maxRecDepth 4000
set_option linter.unusedVariables false

/- Verification of the EagleTree FAST FTL (src/FTLs/fast_ftl.cpp) and the
block manager (src/ssd_block_manager_parent.cpp), as a shallow embedding.
Machine unsigned integers are modelled as Nat (with explicit 2^32 wrap
where a subtraction can matter); the C sentinel -1 values of `long`
fields are modelled with Int. External collaborators (device page state,
Controller::get_free_page, Block_manager get_free_block) are passed as
oracle arguments, per the interfaces of the spec. -/

/-- Page state as reported by the device (FREE / VALID / INVALID). -/
inductive PState where
  | free
  | valid
  | invalid
deriving DecidableEq

/-- Result of FtlImpl_Fast::read: either FAILURE, or a read issued to the
controller at a linear page address. -/
inductive ReadRes where
  | failure
  | issue (addr : Int)
deriving DecidableEq

/-- LogPageBlock: the physical block's linear address plus the
per-logical-page-offset slot table (sentinel -1 = page not in the log
block). -/
structure LogPageBlock where
  address : Int
  pages : List Int
deriving DecidableEq

/-- FTL state of FtlImpl_Fast: the block-mapping table data_list
(association list; an absent key stands for the -1 the constructor put
there), the random-log index log_map, and the three sequential-log
registers. -/
structure FastState where
  data_list : List (Int × Int)
  log_map : List (Int × LogPageBlock)
  seq_address : Int
  seq_logical : Int
  seq_offset : Nat
deriving DecidableEq

/-- data_list lookup; a missing entry stands for the -1 written by the
constructor. -/
def lookupDL (dl : List (Int × Int)) (k : Int) : Int :=
  match dl.find? (fun p => p.1 == k) with
  | some p => p.2
  | none => -1

/-- data_list assignment `data_list[k] = v`. -/
def setDL (dl : List (Int × Int)) (k v : Int) : List (Int × Int) :=
  (k, v) :: dl.filter (fun p => p.1 != k)

/-- log_map lookup (`log_map.find`). -/
def lookupLM (m : List (Int × LogPageBlock)) (k : Int) : Option LogPageBlock :=
  (m.find? (fun p => p.1 == k)).map (fun p => p.2)

/-- log_map erase (`log_map.erase(key)`). -/
def eraseLM (m : List (Int × LogPageBlock)) (k : Int) : List (Int × LogPageBlock) :=
  m.filter (fun p => p.1 != k)

/-- C array read on the pages table of a LogPageBlock. -/
def pagesGet (ps : List Int) (i : Nat) : Int := ps.getD i (-1)

/-- pages table of an optional log block (guards in the source
short-circuit on NULL before dereferencing, so the -1 default is never
the deciding value). -/
def lbPages (o : Option LogPageBlock) (i : Nat) : Int :=
  match o with
  | some b => pagesGet b.pages i
  | none => -1

/-- address of an optional log block. -/
def lbAddr (o : Option LogPageBlock) : Int :=
  match o with
  | some b => b.address
  | none => -1

/-- Bit-counting loop of the FtlImpl_Fast constructor:
`for (int size = n; size > 0; k++) size /= 2`, written with structural
fuel (n halving steps always terminate within n iterations) so that it
reduces definitionally. -/
def bitCountAux : Nat → Nat → Nat
  | 0, _ => 0
  | fuel + 1, n => if n = 0 then 0 else bitCountAux fuel (n / 2) + 1

/-- Number of halvings to reach 0, the loop above with enough fuel. -/
def bitCount (n : Nat) : Nat := bitCountAux n n

/-- addressShift as derived from BLOCK_SIZE in the constructor
(`for (int size = BLOCK_SIZE/2; size > 0; addressShift++) size /= 2`). -/
def addressShift (bs : Nat) : Nat := bitCount (bs / 2)

/-- FtlImpl_Fast::read. lookupBlock is the logical address shifted by
addressShift; the event's page coordinate comes from decoding the logical
address as a linear address, whose lowest field counts BLOCK_SIZE pages,
hence logical % BLOCK_SIZE. The source returns FAILURE only when
data_list[L] = -1 AND a log block exists AND it lacks the page; in the
remaining branch it reads from data_list[L] + p without checking the
sentinel. -/
def FtlRead (bs : Nat) (s : FastState) (logical : Nat) : ReadRes :=
  let lookupBlock : Int := ((logical >>> addressShift bs : Nat) : Int)
  let lb := lookupLM s.log_map lookupBlock
  if lookupDL s.data_list lookupBlock = -1 ∧ lb.isSome ∧ lbPages lb (logical % bs) = -1 then
    .failure
  else if lb.isSome ∧ lbPages lb (logical % bs) ≠ -1 then
    .issue (lbAddr lb + lbPages lb (logical % bs))
  else
    .issue (lookupDL s.data_list lookupBlock + ((logical % bs : Nat) : Int))

/-- Fresh pages table of a new LogPageBlock (all sentinels). -/
def emptyPages (bs : Nat) : List Int := List.replicate bs (-1)

/-- FtlImpl_Fast::allocate_new_logblock. When log_map already holds
PAGE_MAX_LOG entries the source only prints a "killing ..." diagnostic:
the random_merge eviction call is commented out, so no entry is removed.
A fresh LogPageBlock (freshLog = the block handed out by
manager.get_free_block(LOG)) is then inserted for L. -/
def allocate_new_logblock (bs pml : Nat) (s : FastState) (L : Int) (freshLog : Int) :
    FastState :=
  { s with log_map := (L, ⟨freshLog, emptyPages bs⟩) :: s.log_map }

/-- FtlImpl_Fast::write. The whole routing body (sequential detection,
log-block fill, merges) is commented out in the source: the only state
effect is allocating a log block when the logical block has none, after
which the event is issued with its address left untouched (the returned
Option Int is the address the FTL assigned to the event: none). -/
def FtlImplWrite (bs pml : Nat) (s : FastState) (logical : Nat) (freshLog : Int) :
    FastState × Option Int :=
  let L : Int := ((logical >>> addressShift bs : Nat) : Int)
  if (lookupLM s.log_map L).isSome then (s, none)
  else (allocate_new_logblock bs pml s L freshLog, none)

/-- Output of an FTL merge/switch operation: resulting FTL state, the
READ/WRITE pairs appended to the event chain (read source address, write
destination address), the block addresses passed to manager.invalidate,
and the remaining free-block supply. -/
structure MOut where
  st : FastState
  evs : List (Int × Int)
  invs : List Int
  sup : List Int
deriving DecidableEq

/-- Modelled from the spec: manager.get_free_block is Block_manager code
that is not under src/; per the spec it hands out a fully-free block.  It
is modelled as popping a caller-supplied stream of fresh block linear
addresses. -/
def allocFB (sup : List Int) : Int × List Int := (sup.headD 0, sup.tail)

/-- FtlImpl_Fast::switch_sequential: invalidate the old data block when
mapped, promote the sequential block to data block, reset the sequential
registers and grab a fresh block for the sequential slot. -/
def switch_sequential (s : FastState) (L : Int) (sup : List Int) : MOut :=
  let dlL := lookupDL s.data_list L
  let invs := if dlL ≠ -1 then [dlL] else []
  let dl' := setDL s.data_list L s.seq_address
  let (a, sup') := allocFB sup
  ⟨{ s with data_list := dl', seq_offset := 0, seq_logical := -1, seq_address := a },
    [], invs, sup'⟩

/-- Authoritative read source for page offset i in
FtlImpl_Fast::merge_sequential: the sequential block's page i when the
device reports it VALID, else the data block when mapped, else none
("Empty page", the slot is skipped). ps is the device page-state query
(get_state, external to src/). -/
def seqSource (ps : Int → PState) (seqAddr dlL : Int) (i : Nat) : Option Int :=
  if ps (seqAddr + (i : Int)) = .valid then some (seqAddr + (i : Int))
  else if dlL ≠ -1 then some (dlL + (i : Int))
  else none

/-- FtlImpl_Fast::merge_sequential. Nothing happens when no previous
sequential block exists (sequential_logical_address = -1). Otherwise a
fresh data block is taken, one READ/WRITE pair per non-empty slot is
chained onto the event, the old sequential block and (when mapped) the
old data block are invalidated, and data_list[L] is repointed. -/
def merge_sequential (bs : Nat) (ps : Int → PState) (s : FastState) (L : Int)
    (sup : List Int) : MOut :=
  if s.seq_logical = -1 then ⟨s, [], [], sup⟩
  else
    let (newB, sup') := allocFB sup
    let dlL := lookupDL s.data_list L
    let evs := (List.range bs).filterMap fun i =>
      (seqSource ps s.seq_address dlL i).map fun r => (r, newB + (i : Int))
    let invs := s.seq_address :: (if dlL ≠ -1 then [dlL] else [])
    ⟨{ s with data_list := setDL s.data_list L newB }, evs, invs, sup'⟩

/-- Output of FtlImpl_Fast::random_merge (also carries the bool return). -/
structure ROut where
  st : FastState
  evs : List (Int × Int)
  invs : List Int
  sup : List Int
  ret : Bool
deriving DecidableEq

/-- FtlImpl_Fast::random_merge, verbatim from the source: the loop over i
gates every slot on logBlock->pages[eventAddress.page] (the page offset of
the TRIGGERING event, logical % BLOCK_SIZE) and, when that guard holds,
reads from logBlock->address + logBlock->pages[i]. Afterwards the log
block and (when mapped) the data block are invalidated, data_list[L] is
repointed to the fresh block, the log block is disposed
(dispose_logblock: log_map.erase), and true is returned. -/
def random_merge (bs : Nat) (s : FastState) (lb : LogPageBlock) (L : Int)
    (logical : Nat) (sup : List Int) : ROut :=
  let eventPage := logical % bs
  let (newB, sup') := allocFB sup
  let dlL := lookupDL s.data_list L
  let evs := (List.range bs).filterMap fun i =>
    if pagesGet lb.pages eventPage ≠ -1 then
      some (lb.address + pagesGet lb.pages i, newB + (i : Int))
    else if dlL ≠ -1 then some (dlL + (i : Int), newB + (i : Int))
    else none
  let invs := lb.address :: (if dlL ≠ -1 then [dlL] else [])
  let st1 : FastState := { s with data_list := setDL s.data_list L newB }
  ⟨{ st1 with log_map := eraseLM st1.log_map L }, evs, invs, sup', true⟩

/-- Output of FtlImpl_Fast::write_to_log_block: state, chained merge
READ/WRITE pairs, invalidations, remaining free-block supply, and the
address assigned to the triggering write event (none = the source never
called event.set_address on this path). -/
structure WOut where
  st : FastState
  evs : List (Int × Int)
  invs : List Int
  sup : List Int
  emitted : Option Int
deriving DecidableEq

/-- FtlImpl_Fast::write_to_log_block. nfp models
Controller::get_free_page, which is not under src/ — Modelled from the
spec: it writes the next append page of the addressed block into the
address (0 for a fully-free, freshly allocated block). Branches follow
the source: offset 0 switches when sequential_offset = BLOCK_SIZE-1 and
merges otherwise, then restarts the sequential log on a fresh block at
offset 1 and emits the write there; an in-order append advances
sequential_offset; an out-of-order write to the sequential owner merges
and restarts without setting the event's address; the random-log branch
(L different from the sequential owner) contains only comments. -/
def write_to_log_block (bs : Nat) (ps : Int → PState) (nfp : Int → Nat)
    (s : FastState) (logical : Nat) (L : Int) (sup : List Int) : WOut :=
  let lbnOffset := logical % bs
  if lbnOffset = 0 then
    let m := if s.seq_offset = bs - 1 then switch_sequential s L sup
             else merge_sequential bs ps s L sup
    let (a, sup2) := allocFB m.sup
    ⟨{ m.st with seq_address := a, seq_logical := L, seq_offset := 1 },
      m.evs, m.invs, sup2, some (a + (nfp a : Int))⟩
  else if s.seq_logical = L then
    if lbnOffset = s.seq_offset then
      ⟨{ s with seq_offset := s.seq_offset + 1 }, [], [], sup,
        some (s.seq_address + (nfp s.seq_address : Int))⟩
    else
      let m := merge_sequential bs ps s L sup
      let (a, sup2) := allocFB m.sup
      ⟨{ m.st with seq_offset := 1, seq_address := a, seq_logical := L },
        m.evs, m.invs, sup2, none⟩
  else
    ⟨s, [], [], sup, none⟩

/-- C1: on a freshly initialised FTL (data_list all -1, log_map empty) —
so logical page 0 has never been written — FtlImpl_Fast::read does not
return FAILURE: the FAILURE guard requires a log block to exist, so the
data-block branch runs and issues a read at linear address
data_list[L] + p = -1. -/
theorem read_never_written_issues_bogus_address :
    FtlRead 4 ⟨[], [], -1, -1, 0⟩ 0 = .issue (-1) := by decide

/-- C2: with PAGE_MAX_LOG = 1 and BLOCK_SIZE = 4, writing logical address
0 and then logical address 4 (logical block 1) leaves 2 entries in
log_map, violating the bound log_map.size() ≤ PAGE_MAX_LOG: the eviction
in allocate_new_logblock is commented out in the source, so every write
to a new logical block inserts unconditionally. -/
theorem log_map_exceeds_page_max_log :
    ((FtlImplWrite 4 1 (FtlImplWrite 4 1 ⟨[], [], -1, -1, 0⟩ 0 100).1 4 200).1.log_map.length = 2)
    ∧ 1 < 2 := by decide

/-- C3 counterexample: FtlImpl_Fast::write never invokes
write_to_log_block (the routing body is commented out), so a write with
page offset 0 leaves the sequential registers untouched: after writing
logical address 0, sequential_logical_address is still -1 (not L = 0) and
sequential_offset is still 0 (not 1), contradicting the claim as stated
for writes. -/
theorem ftl_write_does_not_route :
    ((FtlImplWrite 4 8 ⟨[], [], -1, -1, 0⟩ 0 100).1.seq_logical = -1)
    ∧ ((FtlImplWrite 4 8 ⟨[], [], -1, -1, 0⟩ 0 100).1.seq_offset = 0)
    ∧ ((FtlImplWrite 4 8 ⟨[], [], -1, -1, 0⟩ 0 100).2 = none) := by decide

/-- C5: BLOCK_SIZE = 2; the log block at address 100 holds logical page 1
at its slot 0 (pages = [-1, 0]) and data_list[0] = 50; the triggering
event has page offset 0. random_merge gates every slot on
pages[eventAddress.page] = pages[0] = -1, so slot 1 is read from the data
block (address 51) even though the log block holds page 1 — the emitted
pairs are [(50, 200), (51, 201)] and no read from the log block (100)
appears. The remaining steps match the claim: data_list[0] is repointed
to the fresh block 200, the log block is disposed from log_map, and true
is returned. -/
theorem random_merge_gates_on_event_page :
    ((random_merge 2 ⟨[(0, 50)], [(0, ⟨100, [-1, 0]⟩)], -1, -1, 0⟩ ⟨100, [-1, 0]⟩ 0 0 [200]).evs
        = [(50, 200), (51, 201)])
    ∧ pagesGet [-1, 0] 1 ≠ -1
    ∧ lookupDL (random_merge 2 ⟨[(0, 50)], [(0, ⟨100, [-1, 0]⟩)], -1, -1, 0⟩ ⟨100, [-1, 0]⟩ 0 0 [200]).st.data_list 0 = 200
    ∧ (random_merge 2 ⟨[(0, 50)], [(0, ⟨100, [-1, 0]⟩)], -1, -1, 0⟩ ⟨100, [-1, 0]⟩ 0 0 [200]).st.log_map = []
    ∧ (random_merge 2 ⟨[(0, 50)], [(0, ⟨100, [-1, 0]⟩)], -1, -1, 0⟩ ⟨100, [-1, 0]⟩ 0 0 [200]).ret = true := by
  decide

/-- Reading back a data_list entry just assigned. -/
theorem lookupDL_setDL (dl : List (Int × Int)) (k v : Int) :
    lookupDL (setDL dl k v) k = v := by
  simp [lookupDL, setDL, List.find?]

/-- C3 (amended): behaviour of write_to_log_block on a page-offset-0
write, with a supply of (at least) two fresh free blocks a1, a2 whose
next free page is 0.  If sequential_offset = BLOCK_SIZE - 1,
switch_sequential runs: no merge reads/writes, data_list[L] becomes the
old sequential block, the old data block (when mapped) is invalidated.
Otherwise merge_sequential runs, which changes nothing when no previous
sequential block existed and otherwise repoints data_list[L] to a fresh
data block, emitting its read/write chain.  In every case a fresh free
block becomes the sequential log block, sequential_logical_address = L,
sequential_offset = 1, and the write is emitted to the new sequential
block's page 0. -/
theorem write_to_log_block_off0 (bs : Nat) (ps : Int → PState) (nfp : Int → Nat)
    (s : FastState) (logical : Nat) (L : Int) (a1 a2 : Int) (rest : List Int)
    (h0 : logical % bs = 0) (hn1 : nfp a1 = 0) (hn2 : nfp a2 = 0) :
    (write_to_log_block bs ps nfp s logical L (a1 :: a2 :: rest)).st.seq_logical = L
    ∧ (write_to_log_block bs ps nfp s logical L (a1 :: a2 :: rest)).st.seq_offset = 1
    ∧ (s.seq_offset = bs - 1 →
        (write_to_log_block bs ps nfp s logical L (a1 :: a2 :: rest)).st.seq_address = a2
        ∧ (write_to_log_block bs ps nfp s logical L (a1 :: a2 :: rest)).emitted = some a2
        ∧ (write_to_log_block bs ps nfp s logical L (a1 :: a2 :: rest)).evs = []
        ∧ lookupDL (write_to_log_block bs ps nfp s logical L (a1 :: a2 :: rest)).st.data_list L
            = s.seq_address
        ∧ (write_to_log_block bs ps nfp s logical L (a1 :: a2 :: rest)).invs
            = (if lookupDL s.data_list L ≠ -1 then [lookupDL s.data_list L] else []))
    ∧ (s.seq_offset ≠ bs - 1 → s.seq_logical = -1 →
        (write_to_log_block bs ps nfp s logical L (a1 :: a2 :: rest)).st.seq_address = a1
        ∧ (write_to_log_block bs ps nfp s logical L (a1 :: a2 :: rest)).emitted = some a1
        ∧ (write_to_log_block bs ps nfp s logical L (a1 :: a2 :: rest)).evs = []
        ∧ (write_to_log_block bs ps nfp s logical L (a1 :: a2 :: rest)).invs = []
        ∧ (write_to_log_block bs ps nfp s logical L (a1 :: a2 :: rest)).st.data_list
            = s.data_list)
    ∧ (s.seq_offset ≠ bs - 1 → s.seq_logical ≠ -1 →
        (write_to_log_block bs ps nfp s logical L (a1 :: a2 :: rest)).st.seq_address = a2
        ∧ (write_to_log_block bs ps nfp s logical L (a1 :: a2 :: rest)).emitted = some a2
        ∧ lookupDL (write_to_log_block bs ps nfp s logical L (a1 :: a2 :: rest)).st.data_list L
            = a1
        ∧ (write_to_log_block bs ps nfp s logical L (a1 :: a2 :: rest)).evs
            = (merge_sequential bs ps s L (a1 :: a2 :: rest)).evs
        ∧ (write_to_log_block bs ps nfp s logical L (a1 :: a2 :: rest)).invs
            = s.seq_address :: (if lookupDL s.data_list L ≠ -1 then [lookupDL s.data_list L] else [])) := by
  by_cases hseq : s.seq_offset = bs - 1
  · have hw : write_to_log_block bs ps nfp s logical L (a1 :: a2 :: rest)
        = ⟨{ s with data_list := setDL s.data_list L s.seq_address, seq_offset := 1, seq_logical := L, seq_address := a2 }, [], if lookupDL s.data_list L ≠ -1 then [lookupDL s.data_list L] else [], rest, some (a2 + (nfp a2 : Int))⟩ := by
      simp [write_to_log_block, h0, hseq, switch_sequential, allocFB]
    refine ⟨by simp [hw], by simp [hw], fun _ => ?_, fun h _ => absurd hseq h, fun h _ => absurd hseq h⟩
    simp [hw, hn2, lookupDL_setDL]
  · by_cases hprev : s.seq_logical = -1
    · have hw : write_to_log_block bs ps nfp s logical L (a1 :: a2 :: rest)
          = ⟨{ s with seq_offset := 1, seq_logical := L, seq_address := a1 }, [], [], a2 :: rest, some (a1 + (nfp a1 : Int))⟩ := by
        simp [write_to_log_block, h0, hseq, merge_sequential, hprev, allocFB]
      refine ⟨by simp [hw], by simp [hw], fun h => absurd h hseq, fun _ _ => ?_,
        fun _ h => absurd hprev h⟩
      simp [hw, hn1]
    · have hw : write_to_log_block bs ps nfp s logical L (a1 :: a2 :: rest)
          = ⟨{ s with data_list := setDL s.data_list L a1, seq_offset := 1, seq_logical := L, seq_address := a2 }, (merge_sequential bs ps s L (a1 :: a2 :: rest)).evs, s.seq_address :: (if lookupDL s.data_list L ≠ -1 then [lookupDL s.data_list L] else []), rest, some (a2 + (nfp a2 : Int))⟩ := by
        simp [write_to_log_block, h0, hseq, merge_sequential, hprev, allocFB]
      refine ⟨by simp [hw], by simp [hw], fun h => absurd h hseq, fun _ h => absurd h hprev,
        fun _ _ => ?_⟩
      simp [hw, hn2, lookupDL_setDL]

/-- C3 witness: a concrete page-offset-0 write (BLOCK_SIZE = 4,
logical = 0, L = 0) on a state whose sequential log is at offset
3 = BLOCK_SIZE - 1: the switch path runs and the write lands on page 0 of
the fresh block 201. -/
theorem write_to_log_block_off0_witness :
    (write_to_log_block 4 (fun _ => PState.invalid) (fun _ => 0)
        ⟨[(0, 50)], [], 10, 0, 3⟩ 0 0 [200, 201, 202]).st.seq_logical = 0
    ∧ (write_to_log_block 4 (fun _ => PState.invalid) (fun _ => 0)
        ⟨[(0, 50)], [], 10, 0, 3⟩ 0 0 [200, 201, 202]).st.seq_offset = 1
    ∧ (write_to_log_block 4 (fun _ => PState.invalid) (fun _ => 0)
        ⟨[(0, 50)], [], 10, 0, 3⟩ 0 0 [200, 201, 202]).st.seq_address = 201
    ∧ (write_to_log_block 4 (fun _ => PState.invalid) (fun _ => 0)
        ⟨[(0, 50)], [], 10, 0, 3⟩ 0 0 [200, 201, 202]).emitted = some 201
    ∧ (write_to_log_block 4 (fun _ => PState.invalid) (fun _ => 0)
        ⟨[(0, 50)], [], 10, 0, 3⟩ 0 0 [200, 201, 202]).evs = []
    ∧ lookupDL (write_to_log_block 4 (fun _ => PState.invalid) (fun _ => 0)
        ⟨[(0, 50)], [], 10, 0, 3⟩ 0 0 [200, 201, 202]).st.data_list 0 = 10 := by
  have h := write_to_log_block_off0 4 (fun _ => PState.invalid) (fun _ => 0)
    ⟨[(0, 50)], [], 10, 0, 3⟩ 0 0 200 201 [202] (by decide) rfl rfl
  obtain ⟨h1, h2, h3, -, -⟩ := h
  obtain ⟨h4, h5, h6, h7, -⟩ := h3 rfl
  exact ⟨h1, h2, h4, h5, h6, h7⟩

/-- C4: per-slot behaviour of merge_sequential when a previous sequential
block existed (sequential_logical_address different from -1) and a fresh
data block newB heads the free supply.  For every page offset i below
BLOCK_SIZE: when the device reports the sequential block's page i VALID,
the chained READ for slot i comes from the sequential block; otherwise,
when data_list[L] is mapped, from data_list[L] + i; otherwise slot i gets
no chained pair at all.  Each READ is paired with the WRITE into slot i
of newB.  The old sequential block and (when mapped) the old data block
are invalidated, data_list[L] is repointed to newB, the sequential
registers are untouched, and a call with no previous sequential block
changes nothing. -/
theorem merge_sequential_spec (bs : Nat) (ps : Int → PState) (s : FastState) (L : Int)
    (newB : Int) (rest : List Int) (hprev : s.seq_logical ≠ -1) :
    (∀ i : Nat, i < bs →
      (ps (s.seq_address + (i : Int)) = .valid →
        (s.seq_address + (i : Int), newB + (i : Int)) ∈ (merge_sequential bs ps s L (newB :: rest)).evs)
      ∧ (ps (s.seq_address + (i : Int)) ≠ .valid → lookupDL s.data_list L ≠ -1 →
        (lookupDL s.data_list L + (i : Int), newB + (i : Int)) ∈ (merge_sequential bs ps s L (newB :: rest)).evs)
      ∧ (ps (s.seq_address + (i : Int)) ≠ .valid → lookupDL s.data_list L = -1 →
        ∀ r : Int, (r, newB + (i : Int)) ∉ (merge_sequential bs ps s L (newB :: rest)).evs))
    ∧ lookupDL (merge_sequential bs ps s L (newB :: rest)).st.data_list L = newB
    ∧ (merge_sequential bs ps s L (newB :: rest)).invs
        = s.seq_address :: (if lookupDL s.data_list L ≠ -1 then [lookupDL s.data_list L] else [])
    ∧ (merge_sequential bs ps s L (newB :: rest)).st.seq_address = s.seq_address
    ∧ (merge_sequential bs ps s L (newB :: rest)).st.seq_logical = s.seq_logical
    ∧ (merge_sequential bs ps s L (newB :: rest)).st.seq_offset = s.seq_offset
    ∧ (∀ s' : FastState, s'.seq_logical = -1 →
        merge_sequential bs ps s' L (newB :: rest) = ⟨s', [], [], newB :: rest⟩) := by
  have hm : merge_sequential bs ps s L (newB :: rest)
      = ⟨{ s with data_list := setDL s.data_list L newB },
          (List.range bs).filterMap fun i =>
            (seqSource ps s.seq_address (lookupDL s.data_list L) i).map fun r => (r, newB + (i : Int)),
          s.seq_address :: (if lookupDL s.data_list L ≠ -1 then [lookupDL s.data_list L] else []),
          rest⟩ := by
    simp [merge_sequential, hprev, allocFB]
  refine ⟨fun i hi => ⟨fun hv => ?_, fun hnv hdl => ?_, fun hnv hdl r hr => ?_⟩,
    by simp [hm, lookupDL_setDL], by simp [hm], by simp [hm], by simp [hm], by simp [hm],
    fun s' hs' => by simp [merge_sequential, hs']⟩
  · rw [hm]
    exact List.mem_filterMap.mpr ⟨i, List.mem_range.mpr hi, by simp [seqSource, hv]⟩
  · rw [hm]
    exact List.mem_filterMap.mpr ⟨i, List.mem_range.mpr hi, by simp [seqSource, hnv, hdl]⟩
  · rw [hm] at hr
    obtain ⟨j, hj, hmap⟩ := List.mem_filterMap.mp hr
    obtain ⟨src, hsrc, heq⟩ := Option.map_eq_some'.mp hmap
    have hji : j = i := by
      have h2 : newB + (j : Int) = newB + (i : Int) := (Prod.mk.injEq _ _ _ _).mp heq |>.2
      exact_mod_cast add_left_cancel h2
    subst hji
    simp [seqSource, hnv, hdl] at hsrc

/-- C4 witness: BLOCK_SIZE = 2, sequential block at 10 with page 0 VALID
and page 1 not VALID, data_list[0] = 50, fresh data block 200: slot 0 is
read from the sequential block (10), slot 1 from the data block (51),
both written into block 200, data_list[0] becomes 200, and blocks 10 and
50 are invalidated. -/
theorem merge_sequential_spec_witness :
    ((10 : Int), (200 : Int)) ∈ (merge_sequential 2
        (fun a => if a = 10 then PState.valid else PState.invalid)
        ⟨[(0, 50)], [], 10, 5, 3⟩ 0 [200, 201]).evs
    ∧ ((51 : Int), (201 : Int)) ∈ (merge_sequential 2
        (fun a => if a = 10 then PState.valid else PState.invalid)
        ⟨[(0, 50)], [], 10, 5, 3⟩ 0 [200, 201]).evs
    ∧ lookupDL (merge_sequential 2
        (fun a => if a = 10 then PState.valid else PState.invalid)
        ⟨[(0, 50)], [], 10, 5, 3⟩ 0 [200, 201]).st.data_list 0 = 200
    ∧ (merge_sequential 2
        (fun a => if a = 10 then PState.valid else PState.invalid)
        ⟨[(0, 50)], [], 10, 5, 3⟩ 0 [200, 201]).invs = [10, 50] := by
  have h := merge_sequential_spec 2
    (fun a => if a = 10 then PState.valid else PState.invalid)
    ⟨[(0, 50)], [], 10, 5, 3⟩ 0 200 [201] (by decide)
  refine ⟨?_, ?_, h.2.1, ?_⟩
  · simpa using (h.1 0 (by decide)).1 (by decide)
  · simpa using (h.1 1 (by decide)).2.1 (by decide) (by decide)
  · rw [h.2.2.1]; decide

/-- Unsigned 32-bit subtraction, the arithmetic of the uint fields of
Block_manager_parent. -/
def u32sub (a b : Nat) : Nat := (a % 2 ^ 32 + 2 ^ 32 - b % 2 ^ 32) % 2 ^ 32

/-- In range and non-wrapping, u32sub is plain subtraction. -/
theorem u32sub_eq (a b : Nat) (hb : b ≤ a) (ha : a < 2 ^ 32) : u32sub a b = a - b := by
  have h32 : (2 : Nat) ^ 32 = 4294967296 := by norm_num
  unfold u32sub
  rw [Nat.mod_eq_of_lt ha, Nat.mod_eq_of_lt (lt_of_le_of_lt hb ha)]
  simp only [h32]
  omega

/-- Block_manager_parent::sort_into_age_class.  age is the uint
BLOCK_ERASES - erases_remaining (the block's erases_remaining, device
state, is passed as an oracle value); max_age is raised first when age
exceeds it; then `normalized_age = (age - min_age) / (max_age - min_age)`
— UNSIGNED INTEGER division in the source, since every operand is uint
and the quotient is only converted to double by the assignment — and
`klass = floor(normalized_age * num_age_classes * 0.99999)` is modelled
exactly as q * C * 99999 / 100000 (for the magnitudes involved the double
rounding of 0.99999 cannot move the product across an integer boundary).
C++ division by zero (updated max_age = min_age) is undefined behaviour;
the model uses Lean's x / 0 = 0 convention.  Returns (updated max_age,
class). -/
def sort_into_age_class (BE C min_age max_age erasesRem : Nat) : Nat × Nat :=
  let age := u32sub BE erasesRem
  let maxA := if age > max_age then age else max_age
  let q := u32sub age min_age / u32sub maxA min_age
  (maxA, q * C * 99999 / 100000)

/-- Formula of the claim, with exact real (here rational, denominator
cleared) division: floor(((age - min) / (max - min)) * C * 0.99999). -/
def ageClassSpecReal (age min max C : Nat) : Nat :=
  (age - min) * C * 99999 / ((max - min) * 100000)

/-- C9 counterexample: BLOCK_ERASES = 1000, erases_remaining = 995 (so
age = 5), min_age = 0, max_age = 10, num_age_classes = 4.  The claimed
real-division formula gives floor((5/10)*4*0.99999) = floor(1.99998) = 1,
but the source forms the uint quotient 5/10 = 0 first and returns class
0. -/
theorem sort_into_age_class_int_division_cex :
    (sort_into_age_class 1000 4 0 10 995).2 = 0 ∧ ageClassSpecReal 5 0 10 4 = 1 := by
  decide

/-- C9 (amended): sort_into_age_class raises max_age to the block's age
when larger and returns the class
(age - min_age) div (maxA - min_age) * C * 99999 / 100000 with UNSIGNED
INTEGER division (maxA the updated max_age); the class is strictly below
num_age_classes whenever min_age ≤ age and num_age_classes ≥ 1; and when
the updated max_age equals min_age the class is 0 under the model's
x / 0 = 0 reading of the C++ division by zero. -/
theorem sort_into_age_class_amended (BE C min_age max_age erasesRem : Nat)
    (hBE : BE < 2 ^ 32) (hrem : erasesRem ≤ BE)
    (hmin : min_age ≤ BE - erasesRem) (hmax : max_age < 2 ^ 32) (hC : 1 ≤ C) :
    (sort_into_age_class BE C min_age max_age erasesRem).1 = max max_age (BE - erasesRem)
    ∧ (sort_into_age_class BE C min_age max_age erasesRem).2
        = (BE - erasesRem - min_age) / (max max_age (BE - erasesRem) - min_age) * C * 99999 / 100000
    ∧ (sort_into_age_class BE C min_age max_age erasesRem).2 < C
    ∧ (max max_age (BE - erasesRem) = min_age →
        (sort_into_age_class BE C min_age max_age erasesRem).2 = 0) := by
  have hage32 : BE - erasesRem < 2 ^ 32 := lt_of_le_of_lt (Nat.sub_le _ _) hBE
  have hmaxA32 : max max_age (BE - erasesRem) < 2 ^ 32 := max_lt hmax hage32
  have hminA : min_age ≤ max max_age (BE - erasesRem) := le_trans hmin (le_max_right _ _)
  have hA : sort_into_age_class BE C min_age max_age erasesRem
      = (max max_age (BE - erasesRem),
         (BE - erasesRem - min_age) / (max max_age (BE - erasesRem) - min_age) * C * 99999 / 100000) := by
    simp only [sort_into_age_class]
    rw [u32sub_eq BE erasesRem hrem hBE]
    have hifmax : (if BE - erasesRem > max_age then BE - erasesRem else max_age)
        = max max_age (BE - erasesRem) := by split <;> omega
    rw [hifmax, u32sub_eq _ _ hmin hage32, u32sub_eq _ _ hminA hmaxA32]
  have hq : (BE - erasesRem - min_age) / (max max_age (BE - erasesRem) - min_age) ≤ 1 := by
    rcases Nat.eq_zero_or_pos (max max_age (BE - erasesRem) - min_age) with h | h
    · simp [h]
    · calc (BE - erasesRem - min_age) / (max max_age (BE - erasesRem) - min_age)
          ≤ (max max_age (BE - erasesRem) - min_age) / (max max_age (BE - erasesRem) - min_age) := by
            refine Nat.div_le_div_right ?_
            have := le_max_right max_age (BE - erasesRem)
            omega
        _ = 1 := Nat.div_self h
  refine ⟨by rw [hA], by rw [hA], ?_, ?_⟩
  · rw [hA]
    have h1 : (BE - erasesRem - min_age) / (max max_age (BE - erasesRem) - min_age) * C * 99999
        ≤ C * 99999 := by
      have h2 := Nat.mul_le_mul (Nat.mul_le_mul hq (le_refl C)) (le_refl 99999)
      simpa using h2
    have h3 : (BE - erasesRem - min_age) / (max max_age (BE - erasesRem) - min_age) * C * 99999 / 100000
        ≤ C * 99999 / 100000 := Nat.div_le_div_right h1
    have h4 : C * 99999 / 100000 < C :=
      (Nat.div_lt_iff_lt_mul (by norm_num)).mpr (by omega)
    exact lt_of_le_of_lt h3 h4
  · intro hdeg
    rw [hA]
    have h0 : max max_age (BE - erasesRem) - min_age = 0 := by omega
    simp [h0]

/-- C9 witness: BLOCK_ERASES = 1000, erases_remaining = 990 (age 10),
min_age = 0, max_age = 10, 4 age classes: the class is
(10/10)*4*99999/100000 = 3, strictly below 4. -/
theorem sort_into_age_class_amended_witness :
    (sort_into_age_class 1000 4 0 10 990).1 = 10
    ∧ (sort_into_age_class 1000 4 0 10 990).2 = 3
    ∧ (sort_into_age_class 1000 4 0 10 990).2 < 4 := by
  have h := sort_into_age_class_amended 1000 4 0 10 990
    (by norm_num) (by norm_num) (by norm_num) (by norm_num) (by norm_num)
  refine ⟨?_, ?_, h.2.2.1⟩
  · rw [h.1]
    decide
  · rw [h.2.1]
    decide

/-- Address granularity tag. -/
inductive Gran where
  | ssd
  | package
  | die
  | plane
  | block
  | page
  | nothing
deriving DecidableEq

/-- Physical address of the device model. -/
structure Addr where
  package : Nat
  die : Nat
  plane : Nat
  block : Nat
  page : Nat
  valid : Gran
deriving DecidableEq

/-- Block-manager state touched by register_erase_outcome: the free-block
pools keyed by (channel, die, age class), the two page counters, and the
wear bookkeeping (min_age, max_age, blocks_with_min_age as block ids). -/
structure BMState where
  free_blocks : Nat × Nat × Nat → List Addr
  num_free_pages : Nat
  num_avail : Nat
  min_age : Nat
  max_age : Nat
  blocks_with_min_age : List Nat

/-- Block_manager_parent::register_erase_outcome.  The event's address is
rewritten to PAGE granularity with page 0, classed by
sort_into_age_class (which raises max_age when needed; the erased block's
erases_remaining — device state already decremented by the erase — is an
oracle argument), pushed onto free_blocks[package][die][class], and
BLOCK_SIZE is added to both page counters.  Nothing else is touched. -/
def register_erase_outcome (bs BE C : Nat) (s : BMState) (ea : Addr) (erasesRem : Nat) :
    BMState :=
  let a : Addr := { ea with valid := Gran.page, page := 0 }
  let mc := sort_into_age_class BE C s.min_age s.max_age erasesRem
  { s with
    free_blocks := fun k =>
      if k = (a.package, a.die, mc.2) then s.free_blocks k ++ [a] else s.free_blocks k,
    num_free_pages := s.num_free_pages + bs,
    num_avail := s.num_avail + bs,
    max_age := mc.1 }

/-- C8 counterexample: two-block device, block 0 is the unique min-age
block (blocks_with_min_age = [0], min_age = 0) and has just been erased,
so its age is now BLOCK_ERASES - erases_remaining = 1000 - 999 = 1, no
longer the minimum.  register_erase_outcome leaves min_age = 0 and
blocks_with_min_age = [0] completely unchanged — it performs no
min_age / blocks_with_min_age update at all (that bookkeeping lives only
in the separate Wear_Level callback), contrary to the claim. -/
theorem register_erase_outcome_no_wear_update_cex :
    (register_erase_outcome 4 1000 2 ⟨fun _ => [], 16, 16, 0, 1, [0]⟩
        ⟨0, 0, 0, 0, 0, Gran.block⟩ 999).min_age = 0
    ∧ (register_erase_outcome 4 1000 2 ⟨fun _ => [], 16, 16, 0, 1, [0]⟩
        ⟨0, 0, 0, 0, 0, Gran.block⟩ 999).blocks_with_min_age = [0]
    ∧ u32sub 1000 999 = 1 ∧ (1 : Nat) ≠ 0 := by
  refine ⟨rfl, rfl, ?_, by decide⟩
  have := u32sub_eq 1000 999 (by norm_num) (by norm_num)
  omega

/-- C8 (amended): register_erase_outcome pushes the PAGE-granular page-0
address of the freed block onto free_blocks at its (channel, die,
computed age class), adds BLOCK_SIZE to num_free_pages and to
num_available_pages_for_new_writes, raises max_age to the freed block's
new age when larger, and leaves every other pool and the min_age /
blocks_with_min_age wear bookkeeping unchanged. -/
theorem register_erase_outcome_amended (bs BE C : Nat) (s : BMState) (ea : Addr)
    (erasesRem : Nat) :
    (register_erase_outcome bs BE C s ea erasesRem).num_free_pages = s.num_free_pages + bs
    ∧ (register_erase_outcome bs BE C s ea erasesRem).num_avail = s.num_avail + bs
    ∧ (register_erase_outcome bs BE C s ea erasesRem).min_age = s.min_age
    ∧ (register_erase_outcome bs BE C s ea erasesRem).blocks_with_min_age = s.blocks_with_min_age
    ∧ (register_erase_outcome bs BE C s ea erasesRem).max_age
        = (sort_into_age_class BE C s.min_age s.max_age erasesRem).1
    ∧ (register_erase_outcome bs BE C s ea erasesRem).free_blocks
        (ea.package, ea.die, (sort_into_age_class BE C s.min_age s.max_age erasesRem).2)
        = s.free_blocks (ea.package, ea.die, (sort_into_age_class BE C s.min_age s.max_age erasesRem).2)
          ++ [{ ea with valid := Gran.page, page := 0 }]
    ∧ (∀ k : Nat × Nat × Nat,
        k ≠ (ea.package, ea.die, (sort_into_age_class BE C s.min_age s.max_age erasesRem).2) →
        (register_erase_outcome bs BE C s ea erasesRem).free_blocks k = s.free_blocks k) := by
  refine ⟨rfl, rfl, rfl, rfl, rfl, ?_, ?_⟩
  · simp [register_erase_outcome]
  · intro k hk
    simp [register_erase_outcome, hk]

/-- C8 amended-claim witness at a concrete erase: BLOCK_SIZE = 4, both
counters go from 16 to 20, min_age stays 0, blocks_with_min_age stays
[0], and the freed block's page-0 address lands in the matching pool
while a different pool is untouched. -/
theorem register_erase_outcome_amended_witness :
    (register_erase_outcome 4 1000 2 ⟨fun _ => [], 16, 16, 0, 1, [0]⟩
        ⟨0, 0, 0, 0, 0, Gran.block⟩ 999).num_free_pages = 20
    ∧ (register_erase_outcome 4 1000 2 ⟨fun _ => [], 16, 16, 0, 1, [0]⟩
        ⟨0, 0, 0, 0, 0, Gran.block⟩ 999).free_blocks
        (0, 0, (sort_into_age_class 1000 2 0 1 999).2)
        = [⟨0, 0, 0, 0, 0, Gran.page⟩]
    ∧ (register_erase_outcome 4 1000 2 ⟨fun _ => [], 16, 16, 0, 1, [0]⟩
        ⟨0, 0, 0, 0, 0, Gran.block⟩ 999).free_blocks (5, 5, 5) = [] := by
  have h := register_erase_outcome_amended 4 1000 2 ⟨fun _ => [], 16, 16, 0, 1, [0]⟩
    ⟨0, 0, 0, 0, 0, Gran.block⟩ 999
  refine ⟨h.1, ?_, ?_⟩
  · have h6 := h.2.2.2.2.2.1
    simpa using h6
  · have h7 := h.2.2.2.2.2.2 (5, 5, 5) (by decide)
    simpa using h7

/-- Block state of the device model. -/
inductive BState where
  | free
  | pfree
  | active
  | inactive
deriving DecidableEq

/-- Block-manager state touched by register_write_outcome, restricted to
the replace-address block's own candidate set
gc_candidates[ra.package][ra.die][age_class] (block ids), the two page
counters, the scheduled erase list and whether the emergency GC path
ran. -/
structure WControl where
  num_free_pages : Nat
  num_avail : Nat
  cands : List Nat
  erased : List Nat
  gc_invoked : Bool
deriving DecidableEq

/-- Block_manager_parent::register_write_outcome.  Decrements
num_free_pages, decrements num_available_pages_for_new_writes unless the
write is a GC op, invokes emergency GC when num_free_pages ≤ BLOCK_SIZE;
then, for the replace-address block (state and invalid-page count passed
as oracle values of the device), inserts it into its gc_candidates set
when the block is ACTIVE and (pages_invalid < BLOCK_SIZE / 4 OR the set
is empty) — the source's literal condition; and when pages_invalid =
BLOCK_SIZE, removes it from the set and schedules an ERASE. -/
def register_write_outcome (bs : Nat) (s : WControl) (isGC : Bool)
    (blkId : Nat) (blkState : BState) (pagesInvalid : Nat) : WControl :=
  let nf := s.num_free_pages - 1
  let na := if isGC then s.num_avail else s.num_avail - 1
  let gc := decide (nf ≤ bs)
  let cands1 :=
    if blkState = BState.active ∧ (pagesInvalid < bs / 4 ∨ s.cands = []) then
      if blkId ∈ s.cands then s.cands else s.cands ++ [blkId]
    else s.cands
  if pagesInvalid = bs then
    ⟨nf, na, cands1.filter (fun x => x ≠ blkId), s.erased ++ [blkId], gc⟩
  else
    ⟨nf, na, cands1, s.erased, gc⟩

/-- C6: the source's gc_candidates threshold is inverted.  With
BLOCK_SIZE = 8 (threshold BLOCK_SIZE / 4 = 2) and a nonempty candidate
set [99]: an ACTIVE replace block with 4 invalid pages (≥ 2, so the claim
says it is added) is NOT inserted, while an ACTIVE block with only 1
invalid page (< 2, so the claim says it is not added) IS inserted — the
source tests pages_invalid < BLOCK_SIZE / 4 where the claim (and the
spec) require ≥.  The full-block case still schedules the ERASE and
removes the block, as the claim states. -/
theorem register_write_outcome_threshold_inverted :
    (register_write_outcome 8 ⟨100, 100, [99], [], false⟩ false 5 BState.active 4).cands = [99]
    ∧ (register_write_outcome 8 ⟨100, 100, [99], [], false⟩ false 7 BState.active 1).cands = [99, 7]
    ∧ (register_write_outcome 8 ⟨100, 100, [99], [], false⟩ false 99 BState.active 8).cands = []
    ∧ (register_write_outcome 8 ⟨100, 100, [99], [], false⟩ false 99 BState.active 8).erased = [99] := by
  decide

/-- Candidate block as seen by choose_gc_victim: an identifier and its
valid-page count (Block::get_pages_valid). -/
structure Blk where
  id : Nat
  pages_valid : Nat
deriving DecidableEq

/-- One step of the scan in Block_manager_parent::choose_gc_victim: a
candidate strictly below the running minimum becomes the new best
block. -/
def gcStep (acc : Nat × Option Blk) (b : Blk) : Nat × Option Blk :=
  if b.pages_valid < acc.1 then (b.pages_valid, some b) else acc

/-- Victim selection of Block_manager_parent::choose_gc_victim: the
double loop over the candidate sets, starting from
min_valid_pages = BLOCK_SIZE and best_block = NULL. -/
def choose_gc_victim (bs : Nat) (cands : List (List Blk)) : Option Blk :=
  (cands.foldl (fun acc st => st.foldl gcStep acc) (bs, none)).2

/-- Result of the victim-handling tail of choose_gc_victim. -/
structure GCOut where
  victim : Option Blk
  cands : List (List Blk)
  migrated : List Blk
deriving DecidableEq

/-- Tail of Block_manager_parent::choose_gc_victim: when a best block was
found it is erased from its candidate set (the source asserts it sits in
exactly one set and erases it there; removing it from each scanned set is
the same operation under that assertion) and migrated; otherwise nothing
happens. -/
def gc_collect (bs : Nat) (cands : List (List Blk)) : GCOut :=
  match choose_gc_victim bs cands with
  | none => ⟨none, cands, []⟩
  | some b => ⟨some b, cands.map (fun st => st.filter (fun c => c ≠ b)), [b]⟩

/-- perform_gc(double): every candidate set of every channel, die and
age class, in loop order. -/
def perform_gc_whole (bs : Nat) (g : List (List (List (List Blk)))) : GCOut :=
  gc_collect bs (g.flatten.flatten)

/-- perform_gc(package, die, double): the candidate sets of one die. -/
def perform_gc_die (bs : Nat) (g : List (List (List (List Blk)))) (p d : Nat) : GCOut :=
  gc_collect bs ((g.getD p []).getD d [])

/-- perform_gc(class, double): the class-k candidate set of every die. -/
def perform_gc_class (bs : Nat) (g : List (List (List (List Blk)))) (k : Nat) : GCOut :=
  gc_collect bs ((g.map (fun pk => pk.map (fun dies => dies.getD k []))).flatten)

/-- perform_gc(package, die, class, double): a single candidate set. -/
def perform_gc_one (bs : Nat) (g : List (List (List (List Blk)))) (p d k : Nat) : GCOut :=
  gc_collect bs [((g.getD p []).getD d []).getD k []]

/-- Running minimum of valid-page counts, the first component of the
victim scan. -/
def runMin (l : List Blk) (a : Nat) : Nat := l.foldl (fun m c => min m c.pages_valid) a

theorem runMin_nil (a : Nat) : runMin [] a = a := rfl

theorem runMin_cons (b : Blk) (tl : List Blk) (a : Nat) :
    runMin (b :: tl) a = runMin tl (min a b.pages_valid) := rfl

theorem runMin_le_init (l : List Blk) : ∀ a : Nat, runMin l a ≤ a := by
  induction l with
  | nil => intro a; exact le_refl a
  | cons b tl ih =>
    intro a
    calc runMin (b :: tl) a = runMin tl (min a b.pages_valid) := runMin_cons b tl a
      _ ≤ min a b.pages_valid := ih _
      _ ≤ a := min_le_left _ _

theorem runMin_le_mem (l : List Blk) : ∀ (a : Nat) (c : Blk), c ∈ l → runMin l a ≤ c.pages_valid := by
  induction l with
  | nil => intro a c hc; cases hc
  | cons b tl ih =>
    intro a c hc
    rw [runMin_cons]
    rcases List.mem_cons.mp hc with h | h
    · subst h
      calc runMin tl (min a c.pages_valid) ≤ min a c.pages_valid := runMin_le_init tl _
        _ ≤ c.pages_valid := min_le_right _ _
    · exact ih _ c h

theorem runMin_eq_init (l : List Blk) : ∀ a : Nat, (∀ c ∈ l, a ≤ c.pages_valid) → runMin l a = a := by
  induction l with
  | nil => intro a _; rfl
  | cons b tl ih =>
    intro a h
    rw [runMin_cons]
    have hb : a ≤ b.pages_valid := h b (List.mem_cons_self b tl)
    have hmin : min a b.pages_valid = a := min_eq_left hb
    rw [hmin]
    exact ih a (fun c hc => h c (List.mem_cons_of_mem b hc))

theorem runMin_attained (l : List Blk) : ∀ a : Nat, (∃ c ∈ l, c.pages_valid < a) →
    ∃ c ∈ l, c.pages_valid = runMin l a := by
  induction l with
  | nil => intro a h; obtain ⟨c, hc, -⟩ := h; cases hc
  | cons b tl ih =>
    intro a h
    rw [runMin_cons]
    by_cases hb : b.pages_valid < a
    · have hmin : min a b.pages_valid = b.pages_valid := min_eq_right (le_of_lt hb)
      rw [hmin]
      by_cases h1 : ∃ c ∈ tl, c.pages_valid < b.pages_valid
      · obtain ⟨c, hc, hcv⟩ := ih b.pages_valid h1
        exact ⟨c, List.mem_cons_of_mem b hc, hcv⟩
      · push_neg at h1
        exact ⟨b, List.mem_cons_self b tl, (runMin_eq_init tl b.pages_valid h1).symm⟩
    · obtain ⟨c, hc, hcv⟩ := h
      rcases List.mem_cons.mp hc with hcb | hctl
      · subst hcb; exact absurd hcv hb
      · have hmin : min a b.pages_valid = a := min_eq_left (Nat.le_of_not_lt hb)
        rw [hmin]
        obtain ⟨d, hd, hdv⟩ := ih a ⟨c, hctl, hcv⟩
        exact ⟨d, List.mem_cons_of_mem b hd, hdv⟩

theorem gcfold_fst (l : List Blk) : ∀ (a : Nat) (o : Option Blk),
    (l.foldl gcStep (a, o)).1 = runMin l a := by
  induction l with
  | nil => intro a o; rfl
  | cons b tl ih =>
    intro a o
    rw [List.foldl_cons, runMin_cons]
    by_cases hb : b.pages_valid < a
    · have hstep : gcStep (a, o) b = (b.pages_valid, some b) := by simp [gcStep, hb]
      rw [hstep, ih]
      have hmin : min a b.pages_valid = b.pages_valid := min_eq_right (le_of_lt hb)
      rw [hmin]
    · have hstep : gcStep (a, o) b = (a, o) := by simp [gcStep, hb]
      rw [hstep, ih]
      have hmin : min a b.pages_valid = a := min_eq_left (Nat.le_of_not_lt hb)
      rw [hmin]

theorem gcfold_no_improve (l : List Blk) : ∀ (a : Nat) (o : Option Blk),
    (∀ c ∈ l, a ≤ c.pages_valid) → l.foldl gcStep (a, o) = (a, o) := by
  induction l with
  | nil => intro a o _; rfl
  | cons b tl ih =>
    intro a o h
    rw [List.foldl_cons]
    have hb : ¬ b.pages_valid < a := Nat.not_lt.mpr (h b (List.mem_cons_self b tl))
    have hstep : gcStep (a, o) b = (a, o) := by simp [gcStep, hb]
    rw [hstep]
    exact ih a o (fun c hc => h c (List.mem_cons_of_mem b hc))

theorem gcfold_some_stays (l : List Blk) : ∀ (a : Nat) (v : Blk),
    ∃ w : Blk, (l.foldl gcStep (a, some v)).2 = some w := by
  induction l with
  | nil => intro a v; exact ⟨v, rfl⟩
  | cons b tl ih =>
    intro a v
    rw [List.foldl_cons]
    by_cases hb : b.pages_valid < a
    · have hstep : gcStep (a, some v) b = (b.pages_valid, some b) := by simp [gcStep, hb]
      rw [hstep]; exact ih _ b
    · have hstep : gcStep (a, some v) b = (a, some v) := by simp [gcStep, hb]
      rw [hstep]; exact ih _ v

theorem gcfold_find (l : List Blk) : ∀ (a : Nat) (o : Option Blk),
    (∃ c ∈ l, c.pages_valid < a) →
    (l.foldl gcStep (a, o)).2 = l.find? (fun c => c.pages_valid == runMin l a) := by
  induction l with
  | nil => intro a o h; obtain ⟨c, hc, -⟩ := h; cases hc
  | cons b tl ih =>
    intro a o h
    rw [List.foldl_cons, runMin_cons]
    by_cases hb : b.pages_valid < a
    · have hstep : gcStep (a, o) b = (b.pages_valid, some b) := by simp [gcStep, hb]
      have hmin : min a b.pages_valid = b.pages_valid := min_eq_right (le_of_lt hb)
      rw [hstep, hmin]
      by_cases h1 : ∃ c ∈ tl, c.pages_valid < b.pages_valid
      · have hlt : runMin tl b.pages_valid < b.pages_valid := by
          obtain ⟨c, hc, hcv⟩ := h1
          exact lt_of_le_of_lt (runMin_le_mem tl b.pages_valid c hc) hcv
        rw [show List.find? (fun c => c.pages_valid == runMin tl b.pages_valid) (b :: tl)
            = List.find? (fun c => c.pages_valid == runMin tl b.pages_valid) tl from
          List.find?_cons_of_neg _ (by simp only [beq_iff_eq]; omega)]
        exact ih b.pages_valid (some b) h1
      · push_neg at h1
        have heq : runMin tl b.pages_valid = b.pages_valid := runMin_eq_init tl _ h1
        rw [show List.find? (fun c => c.pages_valid == runMin tl b.pages_valid) (b :: tl)
            = some b from List.find?_cons_of_pos _ (by simp [heq]),
          gcfold_no_improve tl b.pages_valid (some b) h1]
    · have hstep : gcStep (a, o) b = (a, o) := by simp [gcStep, hb]
      have hmin : min a b.pages_valid = a := min_eq_left (Nat.le_of_not_lt hb)
      rw [hstep, hmin]
      have h1 : ∃ c ∈ tl, c.pages_valid < a := by
        obtain ⟨c, hc, hcv⟩ := h
        rcases List.mem_cons.mp hc with hcb | hctl
        · subst hcb; exact absurd hcv hb
        · exact ⟨c, hctl, hcv⟩
      have hlt : runMin tl a < a := by
        obtain ⟨c, hc, hcv⟩ := h1
        exact lt_of_le_of_lt (runMin_le_mem tl a c hc) hcv
      have hba : a ≤ b.pages_valid := Nat.le_of_not_lt hb
      rw [show List.find? (fun c => c.pages_valid == runMin tl a) (b :: tl)
          = List.find? (fun c => c.pages_valid == runMin tl a) tl from
        List.find?_cons_of_neg _ (by simp only [beq_iff_eq]; omega)]
      exact ih a o h1

/-- The double loop of choose_gc_victim equals a single scan of the
concatenation of the candidate sets, in order. -/
theorem gcfold_nested (cands : List (List Blk)) : ∀ acc : Nat × Option Blk,
    cands.foldl (fun a st => st.foldl gcStep a) acc = cands.flatten.foldl gcStep acc := by
  induction cands with
  | nil => intro acc; rfl
  | cons c cs ih =>
    intro acc
    rw [List.foldl_cons, List.flatten_cons, List.foldl_append]
    exact ih _

/-- C7 counterexample: a single candidate block with all BLOCK_SIZE = 4
pages valid.  Candidates exist, and the block with the fewest valid pages
among them is that block, yet choose_gc_victim selects no victim: the
scan starts from min_valid_pages = BLOCK_SIZE and only a strictly smaller
count wins. -/
theorem choose_gc_victim_all_valid_cex :
    choose_gc_victim 4 [[⟨7, 4⟩]] = none
    ∧ ((⟨7, 4⟩ : Blk) ∈ ([[(⟨7, 4⟩ : Blk)]] : List (List Blk)).flatten) := by
  decide

/-- C7 (amended): over the scanned candidate sets (the union every
perform_gc overload passes, concatenated in loop order), choose_gc_victim
returns no victim exactly when no candidate has fewer than BLOCK_SIZE
valid pages (in particular when all candidates are fully valid, even
though candidates exist); otherwise the victim is a candidate with the
minimum valid-page count, ties broken by iteration order (it is the first
candidate attaining that count), and it is removed from the candidate
sets and migrated; with no victim nothing changes. -/
theorem choose_gc_victim_amended (bs : Nat) (cands : List (List Blk)) :
    (choose_gc_victim bs cands = none ↔ ∀ c ∈ cands.flatten, bs ≤ c.pages_valid)
    ∧ (∀ v : Blk, choose_gc_victim bs cands = some v →
        v ∈ cands.flatten ∧ v.pages_valid < bs
        ∧ (∀ c ∈ cands.flatten, v.pages_valid ≤ c.pages_valid)
        ∧ cands.flatten.find? (fun c => c.pages_valid == v.pages_valid) = some v)
    ∧ (choose_gc_victim bs cands = none → gc_collect bs cands = ⟨none, cands, []⟩)
    ∧ (∀ v : Blk, choose_gc_victim bs cands = some v →
        gc_collect bs cands = ⟨some v, cands.map (fun st => st.filter (fun c => c ≠ v)), [v]⟩) := by
  have hch : choose_gc_victim bs cands = (cands.flatten.foldl gcStep (bs, none)).2 := by
    unfold choose_gc_victim
    rw [gcfold_nested]
  refine ⟨⟨?_, ?_⟩, ?_, fun hn => by simp [gc_collect, hn], fun v hv => by simp [gc_collect, hv]⟩
  · intro hn c hc
    by_contra hlt
    push_neg at hlt
    have hfind := gcfold_find cands.flatten bs none ⟨c, hc, hlt⟩
    rw [hch, hfind] at hn
    obtain ⟨d, hd, hdeq⟩ := runMin_attained cands.flatten bs ⟨c, hc, hlt⟩
    have hsome : (cands.flatten.find? (fun c => c.pages_valid == runMin cands.flatten bs)).isSome :=
      List.find?_isSome.mpr ⟨d, hd, by simp [hdeq]⟩
    rw [hn] at hsome
    simp at hsome
  · intro hall
    rw [hch, gcfold_no_improve cands.flatten bs none hall]
  · intro v hv
    rw [hch] at hv
    by_cases hall : ∀ c ∈ cands.flatten, bs ≤ c.pages_valid
    · rw [gcfold_no_improve _ _ _ hall] at hv
      simp at hv
    · push_neg at hall
      obtain ⟨c, hc, hclt⟩ := hall
      have hfind := gcfold_find cands.flatten bs none ⟨c, hc, hclt⟩
      rw [hfind] at hv
      have hvmem : v ∈ cands.flatten := List.mem_of_find?_eq_some hv
      have hvp := List.find?_some hv
      simp only [beq_iff_eq] at hvp
      have hmin_lt : runMin cands.flatten bs < bs :=
        lt_of_le_of_lt (runMin_le_mem _ bs c hc) hclt
      refine ⟨hvmem, by omega, fun d hd => ?_, ?_⟩
      · rw [hvp]
        exact runMin_le_mem _ bs d hd
      · rw [hvp]
        exact hv

/-- C7 amended-claim witness: BLOCK_SIZE = 4, candidate sets
[[(1,3), (2,1)], [(3,1)]]: the victim is block 2, the first block with
the minimum valid count 1 in scan order; it is removed from its set and
migrated. -/
theorem choose_gc_victim_amended_witness :
    gc_collect 4 [[⟨1, 3⟩, ⟨2, 1⟩], [⟨3, 1⟩]]
      = ⟨some ⟨2, 1⟩, [[⟨1, 3⟩], [⟨3, 1⟩]], [⟨2, 1⟩]⟩
    ∧ (⟨2, 1⟩ : Blk).pages_valid < 4 := by
  have h := choose_gc_victim_amended 4 [[⟨1, 3⟩, ⟨2, 1⟩], [⟨3, 1⟩]]
  have hc : choose_gc_victim 4 [[⟨1, 3⟩, ⟨2, 1⟩], [⟨3, 1⟩]] = some ⟨2, 1⟩ := by decide
  constructor
  · rw [h.2.2.2 ⟨2, 1⟩ hc]
    decide
  · exact (h.2.1 ⟨2, 1⟩ hc).2.1

/-- C10: a candidate block whose valid-page count equals BLOCK_SIZE is
never selected by choose_gc_victim (the scan only accepts counts strictly
below the initial minimum BLOCK_SIZE); and when every candidate has all
BLOCK_SIZE pages valid, no victim is chosen, no migration is issued and
the candidate sets are left unchanged, even though candidates exist. -/
theorem gc_never_selects_fully_valid (bs : Nat) (cands : List (List Blk)) :
    (∀ v : Blk, choose_gc_victim bs cands = some v → v.pages_valid < bs)
    ∧ ((∀ c ∈ cands.flatten, c.pages_valid = bs) →
        choose_gc_victim bs cands = none ∧ gc_collect bs cands = ⟨none, cands, []⟩) := by
  have hch : choose_gc_victim bs cands = (cands.flatten.foldl gcStep (bs, none)).2 := by
    unfold choose_gc_victim
    rw [gcfold_nested]
  constructor
  · intro v hv
    by_cases hall : ∀ c ∈ cands.flatten, bs ≤ c.pages_valid
    · rw [hch, gcfold_no_improve _ _ _ hall] at hv
      simp at hv
    · push_neg at hall
      obtain ⟨c, hc, hclt⟩ := hall
      rw [hch, gcfold_find cands.flatten bs none ⟨c, hc, hclt⟩] at hv
      have hvp := List.find?_some hv
      simp only [beq_iff_eq] at hvp
      have := runMin_le_mem cands.flatten bs c hc
      omega
  · intro hall
    have hn : choose_gc_victim bs cands = none := by
      rw [hch, gcfold_no_improve _ _ _ (fun c hc => le_of_eq (hall c hc).symm)]
    exact ⟨hn, by simp [gc_collect, hn]⟩

/-- C10 witness: at BLOCK_SIZE = 2, the selected victim of [[(3,1)]] has
fewer than 2 valid pages, and candidate sets [[(1,2)], [(2,2)]] whose
blocks are all fully valid yield no victim and no change. -/
theorem gc_never_selects_fully_valid_witness :
    (⟨3, 1⟩ : Blk).pages_valid < 2
    ∧ choose_gc_victim 2 [[⟨1, 2⟩], [⟨2, 2⟩]] = none
    ∧ gc_collect 2 [[⟨1, 2⟩], [⟨2, 2⟩]] = ⟨none, [[⟨1, 2⟩], [⟨2, 2⟩]], []⟩ := by
  refine ⟨(gc_never_selects_fully_valid 2 [[⟨3, 1⟩]]).1 ⟨3, 1⟩ (by decide), ?_, ?_⟩
  · exact ((gc_never_selects_fully_valid 2 [[⟨1, 2⟩], [⟨2, 2⟩]]).2 (by decide)).1
  · exact ((gc_never_selects_fully_valid 2 [[⟨1, 2⟩], [⟨2, 2⟩]]).2 (by decide)).2
